import Mathlib

/-!
# Excel batch-translation pipeline: a shallow embedding

This file embeds the core logic of the Python Excel-translation pipeline
(`prepare_handler.py`, `translate_batch_handler.py`, `merge_handler.py`,
`handler.py`) and proves/refutes the frozen specification claims about it.

Modelling conventions:
* Python strings are Lean `String`s viewed as `List Char`.
* Python's Unicode-aware character classes (`str.strip`, `str.isalpha`,
  regex `\w`, `\s`) are modelled on the ASCII fragment, extended with the
  Hiragana/Katakana/CJK ranges for `isalpha`/`\w`; every concrete input
  appearing in a theorem below is ASCII, where the model is exact.
* Python `dict` is modelled as an insertion-ordered association list in
  which assigning an existing key overwrites its value in place.
* The Bedrock `converse` call together with JSON decoding of its response
  is abstracted by an oracle indexed by the attempt number that yields
  either a parsed entry list or one of the error classes distinguished by
  the code (`ThrottlingException`, other `ClientError`, other exception).
  The application of parsed entries to the result dict (the id-range guard
  and dict insertion) is modelled exactly.
* `time.sleep` is modelled by logging the slept base seconds; the batch
  path additionally adds a sub-second jitter term `time.time() % 1 ∈ [0,1)`
  to each wait, which the integer log omits (the single-text path has no
  jitter term in the source).
-/

namespace ExcelTranslator

/-! ## Python string primitives (ASCII fragment) -/

/-- Whitespace as recognised by Python `str.strip`, regex `\s` and
`str.split()` — modelled on the ASCII fragment. -/
def pyIsWs (c : Char) : Bool :=
  c = ' ' || c = '\t' || c = '\n' || c = '\x0d' || c = '\x0b' || c = '\x0c'

/-- Python `str.isalpha` / the letter part of regex `\w`: Unicode-aware in
CPython; modelled here as ASCII letters plus the Hiragana, Katakana and
unified CJK ranges, which covers every input used in this development. -/
def pyIsAlpha (c : Char) : Bool :=
  c.isAlpha
    || (0x3041 ≤ c.toNat && c.toNat ≤ 0x30ff)
    || (0x4e00 ≤ c.toNat && c.toNat ≤ 0x9fff)

/-- Regex `\w` (word character): letters, digits and underscore. -/
def pyIsWord (c : Char) : Bool :=
  pyIsAlpha c || c.isDigit || c = '_'

/-- Python `str.strip()` on a character list. -/
def pyStrip (cs : List Char) : List Char :=
  ((cs.dropWhile pyIsWs).reverse.dropWhile pyIsWs).reverse

/-- Python `str.strip()` on a `String`. -/
def pyStripStr (s : String) : String :=
  String.mk (pyStrip s.toList)

/-- Python `str.split()` (split on whitespace runs, dropping empties),
with explicit fuel so that the kernel can evaluate it; `pySplit` supplies
fuel `cs.length`, which one whole word plus surrounding whitespace per
step never exhausts. -/
def pySplitGo : Nat → List Char → List (List Char)
  | 0, _ => []
  | fuel + 1, cs =>
      match cs.dropWhile pyIsWs with
      | [] => []
      | c :: rest =>
          (c :: rest.takeWhile (fun d => !pyIsWs d)) ::
            pySplitGo fuel (rest.dropWhile (fun d => !pyIsWs d))

/-- Python `str.split()`. -/
def pySplit (cs : List Char) : List (List Char) :=
  pySplitGo cs.length cs

/-! ## The regex checks of `should_skip_text`

Each Python regex (all used through `re.match`, i.e. anchored at the
start) is translated into a deterministic matcher.  For each pattern the
character classes involved are pairwise disjoint at every backtracking
point, so greedy matching (with the explicit one-character alternatives
for the `{1,2}` counters) is equivalent to the backtracking semantics. -/

/-- Matches `^-?[\d,\s]+\.?\d*%?$` : numbers only (signed, comma/space grouped,
decimal, percent-suffixed). -/
def matchNumeric (cs : List Char) : Bool :=
  let cs := match cs with
    | '-' :: rest => rest
    | _ => cs
  let run := cs.takeWhile (fun c => c.isDigit || c = ',' || pyIsWs c)
  let rest := cs.drop run.length
  if run.isEmpty then false
  else
    let rest := match rest with
      | '.' :: r => r
      | _ => rest
    let rest := rest.dropWhile Char.isDigit
    let rest := match rest with
      | '%' :: r => r
      | _ => rest
    rest.isEmpty

/-- Consume exactly `n` digits, returning the remainder. -/
def digitsExactly : Nat → List Char → Option (List Char)
  | 0, cs => some cs
  | n + 1, c :: cs => if c.isDigit then digitsExactly n cs else none
  | _ + 1, [] => none

/-- All remainders after consuming one or two digits (`\d{1,2}`). -/
def afterD12 (cs : List Char) : List (List Char) :=
  match cs with
  | a :: rest =>
      if a.isDigit then
        match rest with
        | b :: r2 => if b.isDigit then [r2, rest] else [rest]
        | [] => [rest]
      else []
  | [] => []

/-- Tests the date separator character class (dash or slash). -/
def isDateSep (c : Char) : Bool := c = '-' || c = '/'

/-- Matches the date regex `year(4 digits) sep day(1-2) sep day(1-2)`, anchored, sep being dash or slash. -/
def matchDateYmd (cs : List Char) : Bool :=
  match digitsExactly 4 cs with
  | some (s :: r) =>
      isDateSep s &&
        (afterD12 r).any fun r2 =>
          match r2 with
          | s2 :: r3 => isDateSep s2 && (afterD12 r3).any List.isEmpty
          | [] => false
  | _ => false

/-- Matches the date regex `d(1-2) sep d(1-2) sep year(4 digits)`, anchored, sep being dash or slash. -/
def matchDateDmy4 (cs : List Char) : Bool :=
  (afterD12 cs).any fun r =>
    match r with
    | s :: r2 =>
        isDateSep s &&
          (afterD12 r2).any fun r3 =>
            match r3 with
            | s2 :: r4 =>
                isDateSep s2 &&
                  (match digitsExactly 4 r4 with
                   | some rest => rest.isEmpty
                   | none => false)
            | [] => false
    | [] => false

/-- Matches the date regex `d(1-2) sep d(1-2) sep d(2)`, anchored, sep being dash or slash. -/
def matchDateDmy2 (cs : List Char) : Bool :=
  (afterD12 cs).any fun r =>
    match r with
    | s :: r2 =>
        isDateSep s &&
          (afterD12 r2).any fun r3 =>
            match r3 with
            | s2 :: r4 =>
                isDateSep s2 &&
                  (match digitsExactly 2 r4 with
                   | some rest => rest.isEmpty
                   | none => false)
            | [] => false
    | [] => false

/-- Matches `^\d{4}年\d{1,2}月\d{1,2}日$`. -/
def matchDateJp (cs : List Char) : Bool :=
  match digitsExactly 4 cs with
  | some (s :: r) =>
      s = '年' &&
        (afterD12 r).any fun r2 =>
          match r2 with
          | s2 :: r3 =>
              s2 = '月' &&
                (afterD12 r3).any fun r4 =>
                  match r4 with
                  | s3 :: r5 => s3 = '日' && r5.isEmpty
                  | [] => false
          | [] => false
  | _ => false

/-- Matches `^\d{1,2}:\d{2}(:\d{2})?(\s*[APap][Mm])?$`. -/
def matchTime (cs : List Char) : Bool :=
  (afterD12 cs).any fun r =>
    match r with
    | ':' :: r2 =>
        (match digitsExactly 2 r2 with
         | some r3 =>
             let afterSec : List (List Char) :=
               match r3 with
               | ':' :: r5 =>
                   match digitsExactly 2 r5 with
                   | some r6 => [r6, r3]
                   | none => [r3]
               | _ => [r3]
             afterSec.any fun r7 =>
               r7.isEmpty ||
                 (let r8 := r7.dropWhile pyIsWs
                  match r8 with
                  | a :: m :: rest =>
                      (a = 'A' || a = 'P' || a = 'a' || a = 'p') &&
                        (m = 'M' || m = 'm') && rest.isEmpty
                  | _ => false)
         | none => false)
    | _ => false

/-- Matches `^https?://` with `re.IGNORECASE` (prefix match only). -/
def matchUrl (cs : List Char) : Bool :=
  let low := cs.map Char.toLower
  low.take 7 = "http://".toList || low.take 8 = "https://".toList

/-- Character class `[\w\.-]` of the email regex. -/
def isEmailChar (c : Char) : Bool :=
  pyIsWord c || c = '.' || c = '-'

/-- Matches `^[\w\.-]+@[\w\.-]+\.\w+$` : the local part is the (nonempty) maximal
class run before the first `@`; the domain must decompose as
`P ++ "." ++ S` with `S` a nonempty word-character run — backtracking
picks the last dot, which is what splitting the reversed domain at the
first dot computes. -/
def matchEmail (cs : List Char) : Bool :=
  let localPart := cs.takeWhile isEmailChar
  match cs.drop localPart.length with
  | '@' :: rest =>
      !localPart.isEmpty &&
        rest.all isEmailChar &&
        (let rrev := rest.reverse
         let suffix := rrev.takeWhile pyIsWord
         match rrev.drop suffix.length with
         | '.' :: before => !suffix.isEmpty && !before.isEmpty
         | _ => false)
  | _ => false

/-- Matches `^[\d\s\-\+\(\)]+$` together with `len(re.sub(r'\D','',text)) >= 7`
(phone-like: at least seven digits once non-digits are stripped). -/
def matchPhone (cs : List Char) : Bool :=
  !cs.isEmpty &&
    cs.all (fun c => c.isDigit || pyIsWs c || c = '-' || c = '+' || c = '(' || c = ')') &&
    decide (7 ≤ (cs.filter Char.isDigit).length)

/-- Currency symbols of the first currency regex: `[$€£¥₩]`. -/
def isCurrencySym (c : Char) : Bool :=
  c = '$' || c = '€' || c = '£' || c = '¥' || c = '₩'

/-- Tail `[\d,]+\.?\d*` shared by both currency regexes; returns the
remainder on success. -/
def currencyAmount (cs : List Char) : Option (List Char) :=
  let run := cs.takeWhile (fun c => c.isDigit || c = ',')
  if run.isEmpty then none
  else
    let rest := cs.drop run.length
    let rest := match rest with
      | '.' :: r => r
      | _ => rest
    some (rest.dropWhile Char.isDigit)

/-- Matches `^[$€£¥₩]\s*[\d,]+\.?\d*$`. -/
def matchCurrencyPre (cs : List Char) : Bool :=
  match cs with
  | c :: rest =>
      isCurrencySym c &&
        (match currencyAmount (rest.dropWhile pyIsWs) with
         | some r => r.isEmpty
         | none => false)
  | [] => false

/-- Matches `^[\d,]+\.?\d*\s*[$€£¥₩円]$`. -/
def matchCurrencyPost (cs : List Char) : Bool :=
  match currencyAmount cs with
  | some rest =>
      (match rest.dropWhile pyIsWs with
       | [c] => isCurrencySym c || c = '円'
       | _ => false)
  | none => false

/-- Membership in the ASCII text class
`[A-Za-z0-9\s\.,;:!?\'"()\-_@#$%&*+=/<>\\|{}\[\]` (backtick) `~]`. -/
def isAsciiAllowed (c : Char) : Bool :=
  (c.isAlpha || c.isDigit || pyIsWs c) ||
    (".,;:!?\x27\"()-_@#$%&*+=/<>\\|\x7b\x7d[]\x60~").toList.contains c

/-- Full-string match of the ASCII text class above. -/
def allAsciiAllowed (cs : List Char) : Bool := cs.all isAsciiAllowed

/-- Matches `^[A-Z][A-Za-z0-9_]+$` (CamelCase-identifier shape). -/
def matchCamel (cs : List Char) : Bool :=
  match cs with
  | c :: rest =>
      c.isUpper && !rest.isEmpty &&
        rest.all fun d => d.isAlpha || d.isDigit || d = '_'
  | [] => false

/-- Matches `^[a-z_][a-z0-9_]*$` (snake_case-identifier shape). -/
def matchSnake (cs : List Char) : Bool :=
  match cs with
  | c :: rest =>
      (c.isLower || c = '_') &&
        rest.all fun d => d.isLower || d.isDigit || d = '_'
  | [] => false

/-- Matches `^[A-Za-z]:\\` (Windows path prefix) or a leading `/`. -/
def matchFilePath (cs : List Char) : Bool :=
  match cs with
  | a :: b :: c :: _ => (a.isAlpha && b = ':' && c = '\\') || a = '/'
  | a :: _ => a = '/'
  | [] => false

/-- `should_skip_text` from `prepare_handler.py` (identical in
`handler.py`): the pure text classifier.  `true` means Skip, `false`
means Translatable. -/
def should_skip_text (s : String) : Bool :=
  let cs := pyStrip s.toList
  if cs.isEmpty then true
  else if matchNumeric cs then true
  else if matchDateYmd cs || matchDateDmy4 cs || matchDateDmy2 cs || matchDateJp cs then true
  else if matchTime cs then true
  else if matchUrl cs then true
  else if matchEmail cs then true
  else if matchPhone cs then true
  else if !cs.any pyIsAlpha then true
  else if matchCurrencyPre cs || matchCurrencyPost cs then true
  else if allAsciiAllowed cs && (pySplit cs).length ≤ 2 then true
  else if allAsciiAllowed cs && matchCamel cs then true
  else if allAsciiAllowed cs && matchSnake cs then true
  else if matchFilePath cs then true
  else false

/-! ## Python `dict` model -/

/-- An insertion-ordered association list modelling a Python `dict` with
`String` keys and values. -/
abbrev PyDict := List (String × String)

/-- Python `d[k] = v`: overwrite in place when the key exists (Python
dicts never hold a key twice, so replacing the first occurrence is
exact), else append. -/
def dinsert : PyDict → String → String → PyDict
  | [], k, v => [(k, v)]
  | p :: m, k, v => if p.1 = k then (k, v) :: m else p :: dinsert m k v

/-- Python `d.get(k)` / `d[k]` lookup (first — hence only — binding). -/
def dlookup : PyDict → String → Option String
  | [], _ => none
  | p :: m, k => if p.1 = k then some p.2 else dlookup m k

/-- Python `k in d`. -/
def dhas : PyDict → String → Bool
  | [], _ => false
  | p :: m, k => p.1 = k || dhas m k

/-! ## Parsed-response application (`translate_texts_batch`, structured
and line-scan paths alike)

A parsed entry is an optional integer id (`item.get("id")`; a missing id
is `none`) together with the translation string (`item.get("translation",
"")`, already defaulted to the empty string). Both the structured-JSON
path and the degraded line-scan path funnel every recovered entry through
the same guard `idx is not None and 0 <= idx < len(texts)` followed by
`translations[texts[idx]] = translated`. -/

/-- One `{id, translation}` entry recovered from a model response. -/
structure JEntry where
  id : Option Int
  translation : String
deriving DecidableEq

/-- Application of recovered entries to the translations dict, exactly as
both parse paths do: discard an absent or out-of-range id, otherwise
assign `translations[texts[idx]] = translated` (overwriting). -/
def applyParsed (texts : List String) (entries : List JEntry) (m0 : PyDict) : PyDict :=
  entries.foldl
    (fun m e =>
      match e.id with
      | some i =>
          if h : 0 ≤ i ∧ i < (texts.length : Int) then
            dinsert m (texts.get ⟨i.toNat, by omega⟩) e.translation
          else m
      | none => m)
    m0

/-! ## Cells and the Prepare stage -/

/-- A cell value as `openpyxl` delivers it: `None`, a string, or some
non-string payload (number, boolean, datetime, ...). -/
inductive PyValue where
  | pystr (s : String)
  | nonstr
  | pynone
deriving DecidableEq

/-- The text of a string-valued cell (defaults to `""` otherwise;
only ever applied to cells that passed `is_translatable_cell`). -/
def textOf : PyValue → String
  | .pystr s => s
  | _ => ""

/-- Python `str(cell.value).startswith("=")`, the formula test. -/
def isFormulaText : List Char → Bool
  | '=' :: _ => true
  | _ => false

/-- `is_translatable_cell` from `prepare_handler.py`: a cell is
translatable when its value is a string that is not blank, not a formula
(leading `=`), and not classified as skippable. -/
def is_translatable_cell (v : PyValue) : Bool :=
  match v with
  | .pystr s =>
      !(pyStrip s.toList).isEmpty && !isFormulaText s.toList && !should_skip_text s
  | _ => false

/-- One worksheet: its title and its cells (coordinate and value) in the
fixed `iter_rows` traversal order. -/
structure Sheet where
  title : String
  cells : List (String × PyValue)
deriving DecidableEq

/-- A located translatable cell recorded by Prepare (`all_cells_info`
entries, the CellRefs of the spec). -/
structure CellInfo where
  sheet : String
  coord : String
  text : String
deriving DecidableEq

/-- The Prepare scan: every sheet, every cell in traversal order; each
translatable cell contributes a CellRef. -/
def collectCells (sheets : List Sheet) : List CellInfo :=
  sheets.flatMap fun sh =>
    (sh.cells.filter (fun c => is_translatable_cell c.2)).map
      (fun c => { sheet := sh.title, coord := c.1, text := textOf c.2 })

/-- The distinct translatable texts of the document — the contents of the
Python set `unique_texts` (held as a duplicate-free list; only membership
is meaningful, mirroring that a `set` carries no specified order). -/
def uniqueList (sheets : List Sheet) : List String :=
  ((collectCells sheets).map (fun c => c.text)).dedup

/-- Recognises a possible result of `list(unique_texts)`: a duplicate-free
list with exactly the membership of the unique-text set.  CPython's `set`
iteration order depends on the per-process hash salt, so any such list can
be produced by some run. -/
def isEnumOf (order pool : List String) : Bool :=
  decide (order.dedup = order) && order.all (fun t => decide (t ∈ pool)) &&
    pool.all (fun t => decide (t ∈ order))

/-! ## Batch partition (Prepare) -/

/-- `BATCH_SIZE = 100  # Texts per batch`. -/
def BATCH_SIZE : Nat := 100

/-- The slicing loop `for i in range(0, len(unique_texts_list),
BATCH_SIZE): batch_texts = unique_texts_list[i:i + BATCH_SIZE]`, written
with explicit fuel (each step strictly shortens the list, so fuel
`l.length` is never exhausted) to keep it kernel-evaluable. -/
def chunkGo : Nat → List String → List (List String)
  | 0, _ => []
  | _, [] => []
  | fuel + 1, l@(_ :: _) => l.take BATCH_SIZE :: chunkGo fuel (l.drop BATCH_SIZE)

/-- The batch-slicing loop of Prepare. -/
def chunkTexts (l : List String) : List (List String) :=
  chunkGo l.length l

/-- The emitted batch descriptors: `batch_id = i // BATCH_SIZE` yields the
chunk index, so batches are the chunks paired with sequential ids from 0. -/
def prepareBatches (order : List String) : List (Nat × List String) :=
  (chunkTexts order).enum

/-! ## TranslationClient: `translate_texts_batch` (Step Functions unit)

The Bedrock call plus response decoding is abstracted by an oracle mapping
the attempt number to an outcome; entry application is `applyParsed`.
The loop body distinguishes exactly the classes the code does:
`ThrottlingException` (retry with backoff unless it was the last attempt,
then re-raise), any other `ClientError` (re-raise at once), any other
exception (re-raise at once). -/

/-- Outcome of one `bedrock_client.converse` call plus response parsing. -/
inductive BedrockOutcome where
  | ok (entries : List JEntry)
  | throttle
  | clientErr
  | otherErr
deriving DecidableEq

/-- The error classes that `translate_texts_batch` can raise. -/
inductive BErr where
  | throttled
  | clientError
  | other
deriving DecidableEq

/-- The retry loop of `translate_texts_batch`, with the attempt index `i`
and structural fuel (`maxRetries - i` on entry, so the fuel runs out
exactly when `range(max_retries)` does).  Returns the raised error or the
translations dict, together with the log of base sleep seconds
(`2 ** (attempt + 1)`; the source adds `time.time() % 1` jitter on top of
each batch wait). -/
def batchLoop (oracle : Nat → BedrockOutcome) (texts : List String)
    (maxRetries : Nat) : Nat → Nat → Except BErr PyDict × List Nat
  | 0, _ => (.ok [], [])
  | fuel + 1, i =>
      match oracle i with
      | .ok entries => (.ok (applyParsed texts entries []), [])
      | .throttle =>
          if i < maxRetries - 1 then
            match batchLoop oracle texts maxRetries fuel (i + 1) with
            | (r, sleeps) => (r, 2 ^ (i + 1) :: sleeps)
          else (.error .throttled, [])
      | .clientErr => (.error .clientError, [])
      | .otherErr => (.error .other, [])

/-- `translate_texts_batch(texts, source_lang, target_lang, max_retries=5)`:
empty input short-circuits to the empty dict; otherwise the retry loop
runs from attempt 0. -/
def translate_texts_batch (oracle : Nat → BedrockOutcome)
    (texts : List String) (maxRetries : Nat := 5) : Except BErr PyDict × List Nat :=
  if texts.isEmpty then (.ok [], [])
  else batchLoop oracle texts maxRetries maxRetries 0

/-! ## TranslationClient: `translate_single_text` -/

/-- Outcome of one single-text `converse` call. -/
inductive SingleOutcome where
  | ok (s : String)
  | throttle
  | err
deriving DecidableEq

/-- The retry loop of `translate_single_text`: a throttling failure before
the last attempt sleeps `2 ** (attempt + 1)` seconds (no jitter term in
the source) and retries; every other failure — and a throttle on the last
attempt — returns the original text.  A success returns the stripped
response. -/
def singleLoop (oracle : Nat → SingleOutcome) (text : String)
    (maxRetries : Nat) : Nat → Nat → String × List Nat
  | 0, _ => (text, [])
  | fuel + 1, i =>
      match oracle i with
      | .ok s => (pyStripStr s, [])
      | .throttle =>
          if i < maxRetries - 1 then
            match singleLoop oracle text maxRetries fuel (i + 1) with
            | (r, sleeps) => (r, 2 ^ (i + 1) :: sleeps)
          else (text, [])
      | .err => (text, [])

/-- `translate_single_text(text, source_lang, target_lang, max_retries=3)`:
blank input returns unchanged, otherwise the loop runs from attempt 0. -/
def translate_single_text (oracle : Nat → SingleOutcome) (text : String)
    (maxRetries : Nat := 3) : String × List Nat :=
  if pyStripStr text = "" then (text, [])
  else singleLoop oracle text maxRetries maxRetries 0

/-! ## The Map-stage Lambda handler (`translate_batch_handler.lambda_handler`) -/

/-- The missing-translation fallback loop of `lambda_handler`:
`missing = [t for t in texts if t not in translations]`, then each missing
text is translated individually and assigned. -/
def fillMissing (texts : List String) (translations : PyDict)
    (single : String → String) : PyDict :=
  (texts.filter (fun t => !dhas translations t)).foldl
    (fun m t => dinsert m t (single t)) translations

/-- The BatchResult returned by the Map unit. -/
structure BatchResult where
  batchId : Nat
  translatedCount : Nat
  success : Bool
deriving DecidableEq

/-- `lambda_handler` of `translate_batch_handler.py`, given the loaded
batch texts: runs `translate_texts_batch` (an exception — including every
non-throttling failure, which `translate_texts_batch` re-raises — escapes
the handler, which wraps nothing in try/except), then fills the missing
texts through `translate_single_text`, stores the result (storage
abstracted), bumps progress (modelled separately; its own failures are
swallowed), and returns a BatchResult with `success: True`. -/
def batch_lambda_handler (oracleB : Nat → BedrockOutcome)
    (oracleS : String → Nat → SingleOutcome)
    (texts : List String) (batchId : Nat) : Except BErr BatchResult :=
  match (translate_texts_batch oracleB texts).1 with
  | .error e => .error e
  | .ok translations =>
      let translations :=
        fillMissing texts translations
          (fun t => (translate_single_text (oracleS t) t).1)
      .ok { batchId := batchId
            translatedCount := translations.length
            success := true }

/-! ## The monolithic client (`handler.bulk_translate_unique_texts`)

Modelled for a single batch slice (the claims quantify per batch call).
The attempt loop differs from the Step Functions unit exactly where the
claims probe it: a non-throttling `ClientError`, any other exception, and
a throttle on the final attempt all `break` out with `success = False`
instead of raising. -/

/-- The per-batch attempt loop of `bulk_translate_unique_texts`: returns
the success flag, the translations dict and the sleep log; it never
raises. -/
def bulkLoop (oracle : Nat → BedrockOutcome) (batch : List String)
    (m0 : PyDict) (maxRetries : Nat) : Nat → Nat → (Bool × PyDict) × List Nat
  | 0, _ => ((false, m0), [])
  | fuel + 1, i =>
      match oracle i with
      | .ok entries => ((true, applyParsed batch entries m0), [])
      | .throttle =>
          if i < maxRetries - 1 then
            match bulkLoop oracle batch m0 maxRetries fuel (i + 1) with
            | (r, sleeps) => (r, 2 ^ (i + 1) :: sleeps)
          else ((false, m0), [])
      | .clientErr => ((false, m0), [])
      | .otherErr => ((false, m0), [])

/-- One batch iteration of `bulk_translate_unique_texts` including its
fallback: after the attempt loop, when the batch did not succeed or some
text is still missing, every missing text goes through the single-text
fallback. -/
def bulkBatchTranslate (oracle : Nat → BedrockOutcome) (batch : List String)
    (m0 : PyDict) (single : String → String) (maxRetries : Nat := 5) : PyDict :=
  let r := (bulkLoop oracle batch m0 maxRetries maxRetries 0).1
  if !r.1 || batch.any (fun t => !dhas r.2 t) then
    fillMissing batch r.2 single
  else r.2

/-! ## ProgressTracker (`update_batch_progress`)

The only shared mutable state is the `completedBatches` attribute, mutated
through the DynamoDB atomic `SET completedBatches =
if_not_exists(completedBatches, :zero) + :inc` update.  Atomic updates
serialise, so an arbitrary interleaving of concurrent unit completions is
a sequence of increment events; nothing in the update references the
batchId, so a re-dispatched unit increments again. -/

/-- The DynamoDB atomic increment applied to the (possibly absent)
counter attribute. -/
def dynamoIncr (c : Option Nat) : Nat := c.getD 0 + 1

/-- The counter attribute after a serialised sequence of completed unit
runs (each run calls `update_batch_progress` once; the list records the
batchId of each run, which the update itself ignores). -/
def counterAfterRuns (runs : List Nat) : Option Nat :=
  runs.foldl (fun st _ => some (dynamoIncr st)) none

/-- The observed `completedBatches` value (0 while absent). -/
def counterValue (runs : List Nat) : Nat :=
  (counterAfterRuns runs).getD 0

/-! ## The Merge stage (`merge_handler.lambda_handler`)

After unioning the partial maps of the successful BatchResults, the merge
loop looks each recorded cell up in the union and assigns the translation
on a hit; the source has no miss branch — in particular no inline
`translate_single_text` call (that fallback exists only in `handler.py`,
the monolithic path) — so on a miss the cell keeps its original text.
The per-cell workbook write is wrapped in try/except; the workbook is
modelled as total, so the write succeeds. -/

/-- The value a recorded cell holds after the merge loop: the unioned
translation on a hit, the untouched original text on a miss. -/
def mergeCellValue (translations : PyDict) (c : CellInfo) : String :=
  match dlookup translations c.text with
  | some tr => tr
  | none => c.text

/-- The whole merge pass over the recorded cells, also counting applied
translations (`translated_count`). -/
def mergeApply (translations : PyDict) (cells : List CellInfo) :
    List (CellInfo × String) × Nat :=
  (cells.map (fun c => (c, mergeCellValue translations c)),
   (cells.filter (fun c => dhas translations c.text)).length)

/-- Modelled from the spec: the per-cell merge behaviour the claim
describes — "For every CellRef, look up its text in the union; on a miss,
call `translateSingle` inline as a last-resort fill".  This definition
follows the spec words, to be compared with `mergeCellValue`, which is
translated from `merge_handler.py`. -/
def mergeCellValueClaimed (translations : PyDict) (single : String → String)
    (c : CellInfo) : String :=
  match dlookup translations c.text with
  | some tr => tr
  | none => single c.text

/-! ## Dictionary lemmas -/

/-- Lookup after assignment: the assigned key reads back the new value,
every other key is untouched. -/
theorem dlookup_dinsert (m : PyDict) (k v k2 : String) :
    dlookup (dinsert m k v) k2 = if k2 = k then some v else dlookup m k2 := by
  induction m with
  | nil =>
      by_cases h : k2 = k
      · simp [dinsert, dlookup, h]
      · have hne : ¬k = k2 := fun he => h he.symm
        simp [dinsert, dlookup, h, hne]
  | cons p m ih =>
      by_cases hp : p.1 = k
      · by_cases h : k2 = k
        · simp [dinsert, dlookup, hp, h]
        · have hne : ¬k = k2 := fun he => h he.symm
          simp [dinsert, dlookup, hp, h, hne]
      · by_cases h2 : p.1 = k2
        · have hne : ¬k2 = k := fun he => hp (h2.trans he)
          simp [dinsert, dlookup, hp, h2, hne]
        · simp [dinsert, dlookup, hp, h2, ih]

/-- Membership agrees with lookup success. -/
theorem dhas_eq_isSome (m : PyDict) (k : String) :
    dhas m k = (dlookup m k).isSome := by
  induction m with
  | nil => simp [dhas, dlookup]
  | cons p m ih =>
      by_cases hp : p.1 = k <;> simp [dhas, dlookup, hp, ih]

/-- Folding key-determined assignments over a list: a key in the list
reads back its assigned value, any other key is untouched. -/
theorem dlookup_foldl_dinsert (ts : List String) (f : String → String)
    (m : PyDict) (k : String) :
    dlookup (ts.foldl (fun m t => dinsert m t (f t)) m) k =
      if k ∈ ts then some (f k) else dlookup m k := by
  induction ts generalizing m with
  | nil => simp
  | cons t ts ih =>
      simp only [List.foldl_cons]
      rw [ih]
      by_cases hk : k ∈ ts
      · simp [hk]
      · by_cases ht : k = t
        · simp [hk, ht, dlookup_dinsert]
        · simp [hk, ht, dlookup_dinsert, List.mem_cons]

/-- What the `lambda_handler` fallback loop guarantees for each text of
the batch: a text the batch call already translated keeps that
translation, a missing text receives its single-text fallback result. -/
theorem dlookup_fillMissing (texts : List String) (tr : PyDict)
    (single : String → String) (t : String) (ht : t ∈ texts) :
    dlookup (fillMissing texts tr single) t =
      if dhas tr t then dlookup tr t else some (single t) := by
  unfold fillMissing
  rw [dlookup_foldl_dinsert]
  by_cases hh : dhas tr t
  · simp [hh, List.mem_filter]
  · simp [hh, List.mem_filter, ht]

/-- When every fallback attempt fails, `translate_single_text` returns
the original text unchanged. -/
theorem translate_single_text_all_fail (text : String) (maxRetries : Nat) :
    (translate_single_text (fun _ => .err) text maxRetries).1 = text := by
  unfold translate_single_text
  split
  · rfl
  · cases maxRetries <;> simp [singleLoop]

/-! ## Chunking lemmas (Prepare partition) -/

/-- Chunking the empty list gives no batches. -/
theorem chunkGo_nil (fuel : Nat) : chunkGo fuel [] = [] := by
  cases fuel <;> rfl

/-- The batches concatenate back to the input list (totality of the
partition). -/
theorem chunkGo_join (fuel : Nat) :
    ∀ l : List String, l.length ≤ fuel → (chunkGo fuel l).flatten = l := by
  induction fuel with
  | zero =>
      intro l h
      have : l = [] := List.length_eq_zero.mp (Nat.le_zero.mp h)
      simp [this, chunkGo]
  | succ fuel ih =>
      intro l h
      cases l with
      | nil => simp [chunkGo]
      | cons a t =>
          simp only [chunkGo, List.flatten_cons]
          rw [ih]
          · exact List.take_append_drop _ _
          · simp only [List.length_drop, List.length_cons, BATCH_SIZE]
            simp only [List.length_cons] at h
            omega

/-- Every element of a batch comes from the input list. -/
theorem chunkGo_mem_subset (fuel : Nat) :
    ∀ (l : List String) (b : List String), b ∈ chunkGo fuel l →
      ∀ x ∈ b, x ∈ l := by
  induction fuel with
  | zero =>
      intro l b hb
      simp [chunkGo] at hb
  | succ fuel ih =>
      intro l b hb x hx
      cases l with
      | nil => simp [chunkGo] at hb
      | cons a t =>
          simp only [chunkGo, List.mem_cons] at hb
          rcases hb with hb | hb
          · exact List.take_subset _ _ (hb ▸ hx)
          · exact List.drop_subset _ _ (ih ((a :: t).drop BATCH_SIZE) b hb x hx)

/-- Every batch except possibly the last holds exactly `BATCH_SIZE`
texts. -/
theorem chunkGo_sizes (fuel : Nat) :
    ∀ l : List String, l.length ≤ fuel →
      ∀ b ∈ (chunkGo fuel l).dropLast, b.length = BATCH_SIZE := by
  induction fuel with
  | zero =>
      intro l h b hb
      simp [chunkGo] at hb
  | succ fuel ih =>
      intro l h b hb
      cases l with
      | nil => simp [chunkGo] at hb
      | cons a t =>
          simp only [chunkGo] at hb
          cases hrest : chunkGo fuel ((a :: t).drop BATCH_SIZE) with
          | nil => simp [hrest] at hb
          | cons r rs =>
              rw [hrest, List.dropLast_cons₂, List.mem_cons] at hb
              rcases hb with hb | hb
              · subst hb
                have hne : (a :: t).drop BATCH_SIZE ≠ [] := by
                  intro hnil
                  rw [hnil, chunkGo_nil] at hrest
                  exact List.noConfusion hrest
                have hlen : BATCH_SIZE < (a :: t).length := by
                  by_contra hle
                  push_neg at hle
                  exact hne (List.drop_eq_nil_of_le hle)
                simp only [List.length_cons, BATCH_SIZE] at hlen
                simp [List.length_take, BATCH_SIZE]
                omega
              · refine ih _ ?_ b (hrest ▸ hb)
                simp only [List.length_drop, List.length_cons, BATCH_SIZE]
                simp only [List.length_cons] at h
                omega

/-- A duplicate-free list is split so that each element lands in exactly
one batch (disjointness plus totality of the partition). -/
theorem chunkGo_countP (fuel : Nat) :
    ∀ l : List String, l.length ≤ fuel → l.Nodup →
      ∀ t ∈ l, (chunkGo fuel l).countP (fun b => decide (t ∈ b)) = 1 := by
  induction fuel with
  | zero =>
      intro l h _ t ht
      have : l = [] := List.length_eq_zero.mp (Nat.le_zero.mp h)
      subst this
      simp at ht
  | succ fuel ih =>
      intro l h hnd t ht
      cases l with
      | nil => simp at ht
      | cons a s =>
          set l := a :: s with hl
          have hsplit : l.take BATCH_SIZE ++ l.drop BATCH_SIZE = l :=
            List.take_append_drop _ _
          have hnd2 : (l.take BATCH_SIZE ++ l.drop BATCH_SIZE).Nodup := by
            rw [hsplit]; exact hnd
          rw [List.nodup_append] at hnd2
          have hdlen : (l.drop BATCH_SIZE).length ≤ fuel := by
            simp only [List.length_drop, hl, List.length_cons, BATCH_SIZE]
            simp only [hl, List.length_cons] at h
            omega
          have hcases : t ∈ l.take BATCH_SIZE ∨ t ∈ l.drop BATCH_SIZE := by
            rw [← List.mem_append, hsplit]; exact ht
          have hchunk : chunkGo (fuel + 1) l =
              l.take BATCH_SIZE :: chunkGo fuel (l.drop BATCH_SIZE) := by
            rw [hl]; rfl
          rw [hchunk, List.countP_cons]
          rcases hcases with hin | hin
          · have hnot : t ∉ l.drop BATCH_SIZE := fun hmem =>
              hnd2.2.2 hin hmem
            have hzero : (chunkGo fuel (l.drop BATCH_SIZE)).countP
                (fun b => decide (t ∈ b)) = 0 := by
              rw [List.countP_eq_zero]
              intro b hb
              simp only [decide_eq_true_eq]
              exact fun hmem =>
                hnot (chunkGo_mem_subset fuel (l.drop BATCH_SIZE) b hb t hmem)
            simp [hzero, hin]
          · have hnot : t ∉ l.take BATCH_SIZE := fun hmem =>
              hnd2.2.2 hmem hin
            have hone := ih (l.drop BATCH_SIZE) hdlen hnd2.2.1 t hin
            simp [hone, hnot]

/-- The batch sizes are a function of the input length alone, mirrored on
`Nat`. -/
def chunkSizes : Nat → Nat → List Nat
  | 0, _ => []
  | _, 0 => []
  | fuel + 1, n + 1 => min BATCH_SIZE (n + 1) :: chunkSizes fuel (n + 1 - BATCH_SIZE)

/-- The length profile of the chunking depends only on `l.length`. -/
theorem chunkGo_map_length (fuel : Nat) :
    ∀ l : List String, (chunkGo fuel l).map List.length = chunkSizes fuel l.length := by
  induction fuel with
  | zero => intro l; simp [chunkGo, chunkSizes]
  | succ fuel ih =>
      intro l
      cases l with
      | nil => simp [chunkGo, chunkSizes]
      | cons a t =>
          simp only [chunkGo, List.map_cons, List.length_cons, chunkSizes]
          rw [ih, List.length_take, List.length_drop]
          simp [List.length_cons]

/-! ## Enumeration-order lemmas (Prepare determinism) -/

/-- A valid set enumeration is duplicate-free. -/
theorem isEnumOf_nodup {o pool : List String} (h : isEnumOf o pool = true) :
    o.Nodup := by
  simp only [isEnumOf, Bool.and_eq_true, decide_eq_true_eq] at h
  exact List.dedup_eq_self.mp h.1.1

/-- A valid set enumeration has exactly the membership of the pool. -/
theorem isEnumOf_mem {o pool : List String} (h : isEnumOf o pool = true) :
    ∀ x, x ∈ o ↔ x ∈ pool := by
  simp only [isEnumOf, Bool.and_eq_true, decide_eq_true_eq,
    List.all_eq_true] at h
  exact fun x => ⟨fun hx => h.1.2 x hx, fun hx => h.2 x hx⟩

/-- Two valid enumerations of the same pool agree as finite sets and in
length. -/
theorem isEnumOf_toFinset_length {o1 o2 pool : List String}
    (h1 : isEnumOf o1 pool = true) (h2 : isEnumOf o2 pool = true) :
    o1.toFinset = o2.toFinset ∧ o1.length = o2.length := by
  have hf : o1.toFinset = o2.toFinset := by
    ext x
    simp only [List.mem_toFinset]
    rw [isEnumOf_mem h1 x, ← isEnumOf_mem h2 x]
  refine ⟨hf, ?_⟩
  rw [← List.toFinset_card_of_nodup (isEnumOf_nodup h1),
    ← List.toFinset_card_of_nodup (isEnumOf_nodup h2), hf]

/-! ## Counter lemmas (ProgressTracker) -/

/-- Starting from a present counter, a fold of atomic increments adds the
number of events. -/
theorem foldl_incr (l : List Nat) :
    ∀ n : Nat, l.foldl (fun st _ => some (dynamoIncr st)) (some n) =
      some (n + l.length) := by
  induction l with
  | nil => intro n; simp
  | cons r rest ih =>
      intro n
      rw [List.foldl_cons]
      have h1 : some (dynamoIncr (some n)) = some (n + 1) := rfl
      rw [h1, ih, List.length_cons]
      congr 1
      omega

/-- The observed counter equals the number of unit completions so far
(regardless of which batchIds completed — nothing keys the increment). -/
theorem counterValue_eq_length (runs : List Nat) :
    counterValue runs = runs.length := by
  cases runs with
  | nil => rfl
  | cons r rest =>
      unfold counterValue counterAfterRuns
      rw [List.foldl_cons]
      have h1 : some (dynamoIncr none) = some 1 := rfl
      rw [h1, foldl_incr, List.length_cons]
      simp [Nat.add_comm]

/-! ## Backoff lemmas (retry policy) -/

/-- Under permanent throttling, the batch loop starting at attempt `i`
sleeps exactly the waits `2 ^ (i + 1), ..., 2 ^ (maxRetries - 1)` — one
wait between consecutive attempts, none after the final attempt. -/
theorem batchLoop_throttle_sleeps (texts : List String) (m : Nat) :
    ∀ fuel i : Nat, fuel = m - i → i < m →
      (batchLoop (fun _ => .throttle) texts m fuel i).2 =
        (List.range (m - 1 - i)).map (fun k => 2 ^ (i + 1 + k)) := by
  intro fuel
  induction fuel with
  | zero => intro i hf hi; omega
  | succ fuel ih =>
      intro i hf hi
      by_cases hlast : i < m - 1
      · have h1 : fuel = m - (i + 1) := by omega
        have h2 : i + 1 < m := by omega
        simp only [batchLoop, hlast, if_true]
        rw [ih (i + 1) h1 h2]
        have hrw : m - 1 - i = (m - 1 - (i + 1)) + 1 := by omega
        rw [hrw, List.range_succ_eq_map, List.map_cons, List.map_map]
        refine congrArg₂ _ (by norm_num) ?_
        apply List.map_congr_left
        intro k _
        simp only [Function.comp_apply]
        congr 1
        omega
      · have hz : m - 1 - i = 0 := by omega
        simp only [batchLoop, hlast, if_false, hz, List.range_zero,
          List.map_nil]

/-- Under permanent throttling, `translate_texts_batch` performs exactly
`maxRetries - 1` backoff waits of `2 ^ (k + 1)` seconds. -/
theorem translate_texts_batch_throttle_sleeps (texts : List String)
    (h : texts ≠ []) (m : Nat) :
    (translate_texts_batch (fun _ => .throttle) texts m).2 =
      (List.range (m - 1)).map (fun k => 2 ^ (k + 1)) := by
  have hne : texts.isEmpty = false := by
    cases texts
    · exact absurd rfl h
    · rfl
  unfold translate_texts_batch
  rw [hne]
  simp only [Bool.false_eq_true, if_false]
  cases m with
  | zero => simp [batchLoop]
  | succ m' =>
      rw [batchLoop_throttle_sleeps texts (m' + 1) (m' + 1) 0 (by omega) (by omega)]
      apply List.map_congr_left
      intro k _
      congr 1
      omega

/-- The single-text loop sleeps the same pattern. -/
theorem singleLoop_throttle_sleeps (text : String) (m : Nat) :
    ∀ fuel i : Nat, fuel = m - i → i < m →
      (singleLoop (fun _ => .throttle) text m fuel i).2 =
        (List.range (m - 1 - i)).map (fun k => 2 ^ (i + 1 + k)) := by
  intro fuel
  induction fuel with
  | zero => intro i hf hi; omega
  | succ fuel ih =>
      intro i hf hi
      by_cases hlast : i < m - 1
      · have h1 : fuel = m - (i + 1) := by omega
        have h2 : i + 1 < m := by omega
        simp only [singleLoop, hlast, if_true]
        rw [ih (i + 1) h1 h2]
        have hrw : m - 1 - i = (m - 1 - (i + 1)) + 1 := by omega
        rw [hrw, List.range_succ_eq_map, List.map_cons, List.map_map]
        refine congrArg₂ _ (by norm_num) ?_
        apply List.map_congr_left
        intro k _
        simp only [Function.comp_apply]
        congr 1
        omega
      · have hz : m - 1 - i = 0 := by omega
        simp only [singleLoop, hlast, if_false, hz, List.range_zero,
          List.map_nil]

/-- Under permanent throttling, `translate_single_text` performs exactly
`maxRetries - 1` backoff waits of `2 ^ (k + 1)` seconds. -/
theorem translate_single_text_throttle_sleeps (text : String)
    (h : ¬pyStripStr text = "") (m : Nat) :
    (translate_single_text (fun _ => .throttle) text m).2 =
      (List.range (m - 1)).map (fun k => 2 ^ (k + 1)) := by
  unfold translate_single_text
  rw [if_neg h]
  cases m with
  | zero => simp [singleLoop]
  | succ m' =>
      rw [singleLoop_throttle_sleeps text (m' + 1) (m' + 1) 0 (by omega) (by omega)]
      apply List.map_congr_left
      intro k _
      congr 1
      omega

/-- Geometric total of the backoff waits. -/
theorem sum_backoff_waits (n : Nat) :
    ((List.range n).map (fun k => 2 ^ (k + 1))).sum = 2 ^ (n + 1) - 2 := by
  induction n with
  | zero => simp
  | succ n ih =>
      rw [List.range_succ, List.map_append, List.sum_append, ih]
      have h2 : (2 : Nat) ^ (n + 2) = 2 ^ (n + 1) + 2 ^ (n + 1) := by ring
      have hge : 2 ≤ 2 ^ (n + 1) := by
        calc 2 = 2 ^ 1 := rfl
          _ ≤ 2 ^ (n + 1) := Nat.pow_le_pow_right (by omega) (by omega)
      simp only [List.map_cons, List.map_nil, List.sum_cons, List.sum_nil]
      omega

/-! ## Claim theorems -/

/-- C9: the text classifier is a deterministic total function (a Lean
function by construction) with `classify("123.45") = Skip`,
`classify("https://x.com") = Skip`, `classify("") = Skip`, and
`classify("Hello, how are you today?") = Translatable`
(`should_skip_text` returning `true` means Skip). -/
theorem classifier_spot_values :
    should_skip_text "123.45" = true ∧
    should_skip_text "https://x.com" = true ∧
    should_skip_text "" = true ∧
    should_skip_text "Hello, how are you today?" = false := by
  exact ⟨by decide, by decide, by decide, by decide⟩

/-- C8: for every duplicate-free unique-text list produced by Prepare,
the emitted batches are a total, non-overlapping partition — they
concatenate back to the list, every text lies in exactly one batch,
batchIds are sequential from 0, and every batch except possibly the last
holds exactly `BATCH_SIZE` (100) texts. -/
theorem prepare_partition_correct (ul : List String) (h : ul.Nodup) :
    (chunkTexts ul).flatten = ul ∧
    (∀ t ∈ ul, (chunkTexts ul).countP (fun b => decide (t ∈ b)) = 1) ∧
    (prepareBatches ul).map Prod.fst = List.range (chunkTexts ul).length ∧
    (∀ b ∈ (chunkTexts ul).dropLast, b.length = BATCH_SIZE) := by
  refine ⟨chunkGo_join ul.length ul le_rfl,
    fun t ht => chunkGo_countP ul.length ul le_rfl h t ht, ?_,
    chunkGo_sizes ul.length ul le_rfl⟩
  simp [prepareBatches]

/-- Witness for C8 at a concrete duplicate-free unique-text list. -/
theorem prepare_partition_correct_witness :
    (chunkTexts ["x one", "x two"]).countP
      (fun b => decide ("x one" ∈ b)) = 1 ∧
    (chunkTexts ["x one", "x two"]).flatten = ["x one", "x two"] :=
  ⟨(prepare_partition_correct ["x one", "x two"] (by decide)).2.1
      "x one" (by decide),
   (prepare_partition_correct ["x one", "x two"] (by decide)).1⟩

/-- C4 (counterexample): the unconditional DynamoDB increment is not
keyed by batchId, so in a job with `totalBatches = 1` a batch-0 unit that
increments and is then re-dispatched after a transient failure (e.g. a
timeout after the increment) increments again on completion, pushing
`completedBatches` to 2 > 1 — the claimed bound fails under re-dispatch. -/
theorem progress_counter_exceeds_total :
    counterValue [0, 0] = 2 ∧ ¬counterValue [0, 0] ≤ 1 := by
  exact ⟨by decide, by decide⟩

/-- C4 (amended): the counter is non-decreasing under any interleaving of
serialised atomic increments, and it never exceeds `totalBatches`
provided the number of completed unit runs is at most `totalBatches`
(i.e. no batchId increments twice); without that proviso a re-dispatched
unit can push it past the bound. -/
theorem progress_counter_monotone_bounded :
    (∀ runs extra : List Nat,
      counterValue runs ≤ counterValue (runs ++ extra)) ∧
    (∀ (runs : List Nat) (totalBatches : Nat),
      runs.length ≤ totalBatches → counterValue runs ≤ totalBatches) := by
  constructor
  · intro runs extra
    rw [counterValue_eq_length, counterValue_eq_length, List.length_append]
    omega
  · intro runs totalBatches h
    rw [counterValue_eq_length]
    exact h

/-- Witness for C4 (amended) on a concrete interleaving. -/
theorem progress_counter_monotone_bounded_witness :
    counterValue [5] ≤ counterValue ([5] ++ [2, 7]) ∧
    counterValue [5, 2, 7] ≤ 3 :=
  ⟨progress_counter_monotone_bounded.1 [5] [2, 7],
   progress_counter_monotone_bounded.2 [5, 2, 7] 3 (by decide)⟩

/-- C5 (counterexample): two response entries with the same id 0 for the
one-text batch `["alpha"]`: the code does not discard the duplicate —
the later entry overwrites, so the result maps `"alpha"` to `"second"`,
not to the first occurrence `"first"` as claimed. -/
theorem parse_duplicate_id_last_wins :
    dlookup (applyParsed ["alpha"]
        [{ id := some 0, translation := "first" },
         { id := some 0, translation := "second" }] []) "alpha"
      = some "second" ∧
    (some "second" : Option String) ≠ some "first" := by
  exact ⟨by decide, by decide⟩

/-- C5 (amended): an entry whose id is absent or outside `[0, batch
length)` is discarded (leaves the result untouched); among entries with
the same valid id, the last occurrence wins — its translation is what
the result maps that text to. -/
theorem parse_entry_guard (texts : List String) (m0 : PyDict) :
    (∀ (e : JEntry) (es : List JEntry),
      (e.id = none ∨
        ∃ i : Int, e.id = some i ∧ (i < 0 ∨ (texts.length : Int) ≤ i)) →
      applyParsed texts (e :: es) m0 = applyParsed texts es m0) ∧
    (∀ (es : List JEntry) (i : Nat) (hi : i < texts.length) (t : String),
      dlookup (applyParsed texts (es ++ [{ id := some (i : Int), translation := t }]) m0)
        (texts.get ⟨i, hi⟩) = some t) := by
  constructor
  · intro e es he
    unfold applyParsed
    rw [List.foldl_cons]
    rcases he with hnone | ⟨i, hid, hbad⟩
    · rw [hnone]
    · rw [hid]
      simp only
      rw [dif_neg]
      rintro ⟨h0, hlt⟩
      rcases hbad with hneg | hge
      · omega
      · omega
  · intro es i hi t
    unfold applyParsed
    rw [List.foldl_append, List.foldl_cons, List.foldl_nil]
    simp only
    rw [dif_pos ⟨Int.natCast_nonneg i, by exact_mod_cast hi⟩]
    simp only [Int.toNat_ofNat]
    rw [dlookup_dinsert, if_pos rfl]

/-- Witness for C5 (amended): a negative id is dropped and the last of
two same-id entries determines the mapping. -/
theorem parse_entry_guard_witness :
    applyParsed ["alpha"]
        [{ id := some (-3), translation := "junk" },
         { id := some 0, translation := "kept" }] []
      = applyParsed ["alpha"] [{ id := some 0, translation := "kept" }] [] ∧
    dlookup (applyParsed ["alpha"]
        [{ id := some 0, translation := "junk" },
         { id := some (0 : Nat), translation := "kept" }] [])
      (["alpha"].get ⟨0, by decide⟩) = some "kept" :=
  ⟨(parse_entry_guard ["alpha"] []).1
      { id := some (-3), translation := "junk" }
      [{ id := some 0, translation := "kept" }]
      (Or.inr ⟨-3, rfl, Or.inl (by decide)⟩),
   (parse_entry_guard ["alpha"] []).2
      [{ id := some 0, translation := "junk" }] 0 (by decide) "kept"⟩

/-- C6: after the Map unit fallback loop every attempted text has an
entry in the returned map, and a text whose every single-text fallback
attempt fails (the all-failure oracle) is mapped to its own original
source text rather than omitted. -/
theorem batch_unit_entry_per_text (texts : List String)
    (translations : PyDict) (oracleS : String → Nat → SingleOutcome)
    (t : String) (ht : t ∈ texts) :
    (dlookup (fillMissing texts translations
        (fun s => (translate_single_text (oracleS s) s).1)) t).isSome = true ∧
    (dhas translations t = false →
      dlookup (fillMissing texts translations
          (fun s => (translate_single_text (fun _ => SingleOutcome.err) s).1)) t
        = some t) := by
  constructor
  · rw [dlookup_fillMissing _ _ _ t ht]
    by_cases hh : dhas translations t
    · rw [if_pos hh]
      rw [dhas_eq_isSome] at hh
      exact hh
    · simp [hh]
  · intro hmiss
    rw [dlookup_fillMissing _ _ _ t ht]
    simp only [hmiss, Bool.false_eq_true, if_false]
    rw [translate_single_text_all_fail]

/-- Witness for C6 on a concrete batch with an empty partial map. -/
theorem batch_unit_entry_per_text_witness :
    (dlookup (fillMissing ["good day friend"] []
        (fun s => (translate_single_text (fun _ => SingleOutcome.err) s).1))
      "good day friend").isSome = true ∧
    dlookup (fillMissing ["good day friend"] []
        (fun s => (translate_single_text (fun _ => SingleOutcome.err) s).1))
      "good day friend" = some "good day friend" :=
  ⟨(batch_unit_entry_per_text ["good day friend"] []
      (fun _ _ => SingleOutcome.err) "good day friend" (by decide)).1,
   (batch_unit_entry_per_text ["good day friend"] []
      (fun _ _ => SingleOutcome.err) "good day friend" (by decide)).2 rfl⟩

/-- C10: whenever the Map-stage handler returns a BatchResult at all
(rather than raising), that result has `success = true`; the only return
statement hard-codes it, so `success = false` is never produced. -/
theorem map_unit_success_always_true (oracleB : Nat → BedrockOutcome)
    (oracleS : String → Nat → SingleOutcome) (texts : List String)
    (batchId : Nat) (r : BatchResult)
    (h : batch_lambda_handler oracleB oracleS texts batchId = .ok r) :
    r.success = true := by
  unfold batch_lambda_handler at h
  cases htb : (translate_texts_batch oracleB texts).1 with
  | error e =>
      rw [htb] at h
      exact absurd h (by simp)
  | ok translations =>
      rw [htb] at h
      simp only [Except.ok.injEq] at h
      rw [← h]

/-- Witness for C10 on a concrete successful run. -/
theorem map_unit_success_always_true_witness :
    batch_lambda_handler (fun _ => BedrockOutcome.ok [])
        (fun _ _ => SingleOutcome.err) ["hello"] 0
      = Except.ok { batchId := 0, translatedCount := 1, success := true } ∧
    (({ batchId := 0, translatedCount := 1, success := true } : BatchResult)).success
      = true :=
  ⟨rfl, map_unit_success_always_true (fun _ => BedrockOutcome.ok [])
      (fun _ _ => SingleOutcome.err) ["hello"] 0
      { batchId := 0, translatedCount := 1, success := true } rfl⟩

/-- C2 (counterexample): a non-throttling `ClientError` on the first
attempt is re-raised by `translate_texts_batch` and nothing in the Map
handler catches it — the failure propagates out of the translation unit
as a raised error instead of proceeding to the single-text fallback. -/
theorem batch_nonthrottle_error_escapes :
    batch_lambda_handler (fun _ => BedrockOutcome.clientErr)
        (fun _ _ => SingleOutcome.err) ["hello"] 0
      = Except.error BErr.clientError := rfl

/-- C2 (amended): a non-throttling failure does abort the attempt with no
further retries and no backoff waits, but the two implementations then
diverge: the Step Functions `translate_texts_batch` re-raises it (the
error leaves the unit), while the monolithic
`bulk_translate_unique_texts` breaks to the per-text fallback and still
produces an entry for every text of the batch. -/
theorem nonthrottle_failure_behaviour (texts : List String)
    (h : texts ≠ []) (m0 : PyDict) (single : String → String) :
    translate_texts_batch (fun _ => BedrockOutcome.clientErr) texts
      = (Except.error BErr.clientError, []) ∧
    (∀ t ∈ texts,
      dhas (bulkBatchTranslate (fun _ => BedrockOutcome.clientErr)
        texts m0 single) t = true) := by
  constructor
  · cases texts with
    | nil => exact absurd rfl h
    | cons a rest => rfl
  · intro t ht
    have hred : bulkBatchTranslate (fun _ => BedrockOutcome.clientErr)
        texts m0 single = fillMissing texts m0 single := rfl
    rw [hred, dhas_eq_isSome, dlookup_fillMissing _ _ _ t ht]
    by_cases hh : dhas m0 t
    · rw [if_pos hh]
      rw [dhas_eq_isSome] at hh
      exact hh
    · simp [hh]

/-- Witness for C2 (amended) on a concrete batch. -/
theorem nonthrottle_failure_behaviour_witness :
    translate_texts_batch (fun _ => BedrockOutcome.clientErr) ["hello"]
      = (Except.error BErr.clientError, []) ∧
    dhas (bulkBatchTranslate (fun _ => BedrockOutcome.clientErr)
      ["hello"] [] (fun s => s)) "hello" = true :=
  ⟨(nonthrottle_failure_behaviour ["hello"] (by decide) [] (fun s => s)).1,
   (nonthrottle_failure_behaviour ["hello"] (by decide) [] (fun s => s)).2
      "hello" (by decide)⟩

/-- A recorded translatable cell whose text missed the unioned
translation map, for the C1 counterexample. -/
def c1UnmatchedCell : CellInfo :=
  { sheet := "Sheet1", coord := "A1", text := "hello world line" }

/-- C1 (counterexample): with an empty union map, the merge loop of
`merge_handler.py` leaves the missed cell holding its original text; the
spec-described behaviour (inline `translateSingle` on a miss, here a
fallback returning `"FILLED"`) would assign the fallback result instead.
The two differ, so Merge does not call the single-text fallback inline. -/
theorem merge_miss_no_fallback_call :
    mergeCellValue [] c1UnmatchedCell = "hello world line" ∧
    mergeCellValueClaimed [] (fun _ => "FILLED") c1UnmatchedCell = "FILLED" ∧
    mergeCellValue [] c1UnmatchedCell ≠
      mergeCellValueClaimed [] (fun _ => "FILLED") c1UnmatchedCell := by
  exact ⟨rfl, rfl, by decide⟩

/-- C1 (amended): for every CellRef recorded by Prepare, Merge assigns a
value to the cell slot deterministically — the mapped translation on a
hit, the untouched original source text on a miss (no fallback call is
made); the cell is never left unset, and with non-blank source text a
missed cell is non-blank. -/
theorem merge_assigns_lookup_or_original (translations : PyDict)
    (cells : List CellInfo) (c : CellInfo) (hc : c ∈ cells) :
    (c, mergeCellValue translations c) ∈ (mergeApply translations cells).1 ∧
    mergeCellValue translations c = (dlookup translations c.text).getD c.text ∧
    (dlookup translations c.text = none →
      mergeCellValue translations c = c.text) ∧
    (dlookup translations c.text = none → c.text ≠ "" →
      mergeCellValue translations c ≠ "") := by
  refine ⟨List.mem_map.mpr ⟨c, hc, rfl⟩, ?_, ?_, ?_⟩
  · unfold mergeCellValue
    cases h : dlookup translations c.text <;> simp [h]
  · intro hnone
    unfold mergeCellValue
    rw [hnone]
  · intro hnone hne
    unfold mergeCellValue
    rw [hnone]
    exact hne

/-- Witness for C1 (amended) on a one-cell snapshot and an empty union. -/
theorem merge_assigns_lookup_or_original_witness :
    mergeCellValue [] { sheet := "S", coord := "A1", text := "hi there you" }
      = "hi there you" ∧
    (({ sheet := "S", coord := "A1", text := "hi there you" } : CellInfo),
        mergeCellValue [] { sheet := "S", coord := "A1", text := "hi there you" })
      ∈ (mergeApply []
          [{ sheet := "S", coord := "A1", text := "hi there you" }]).1 :=
  ⟨(merge_assigns_lookup_or_original []
      [{ sheet := "S", coord := "A1", text := "hi there you" }]
      { sheet := "S", coord := "A1", text := "hi there you" } (by decide)).2.2.1 rfl,
   (merge_assigns_lookup_or_original []
      [{ sheet := "S", coord := "A1", text := "hi there you" }]
      { sheet := "S", coord := "A1", text := "hi there you" } (by decide)).1⟩

/-- C7 (counterexample): a fully-throttled batch call (maxRetries = 5)
accumulates base waits summing to 30 seconds — the waits stop after the
penultimate attempt — while the claimed Σ 2^(k+1) over k ∈ [0, 5) equals
62; likewise the single-text fallback (maxRetries = 3) waits 6 seconds,
not the claimed 14. -/
theorem backoff_sum_mismatch :
    (translate_texts_batch (fun _ => BedrockOutcome.throttle) ["hello"]).2.sum
      = 30 ∧
    ((List.range 5).map (fun k => 2 ^ (k + 1))).sum = 62 ∧
    (translate_texts_batch (fun _ => BedrockOutcome.throttle) ["hello"]).2.sum
      ≠ ((List.range 5).map (fun k => 2 ^ (k + 1))).sum ∧
    (translate_single_text (fun _ => SingleOutcome.throttle) "hello").2.sum
      = 6 ∧
    ((List.range 3).map (fun k => 2 ^ (k + 1))).sum = 14 ∧
    (translate_single_text (fun _ => SingleOutcome.throttle) "hello").2.sum
      ≠ ((List.range 3).map (fun k => 2 ^ (k + 1))).sum := by
  exact ⟨by decide, by decide, by decide, by decide, by decide, by decide⟩

/-- C7 (amended): the fully-throttled backoff waits are 2^(k+1) seconds
for k ranging over [0, maxRetries − 1) — one wait between consecutive
attempts and none after the last — a fixed computable ceiling of
2^maxRetries − 2 seconds: 30 s for batch calls (maxRetries 5, each wait
plus sub-second jitter) and 6 s for single-text fallback calls
(maxRetries 3, no jitter term in the source). -/
theorem backoff_total_formula (texts : List String) (ht : texts ≠ [])
    (text : String) (hs : ¬pyStripStr text = "") (m : Nat) :
    (translate_texts_batch (fun _ => BedrockOutcome.throttle) texts m).2
      = (List.range (m - 1)).map (fun k => 2 ^ (k + 1)) ∧
    (translate_texts_batch (fun _ => BedrockOutcome.throttle) texts m).2.sum
      = 2 ^ m - 2 ∧
    (translate_single_text (fun _ => SingleOutcome.throttle) text m).2
      = (List.range (m - 1)).map (fun k => 2 ^ (k + 1)) ∧
    (translate_single_text (fun _ => SingleOutcome.throttle) text m).2.sum
      = 2 ^ m - 2 ∧
    (translate_texts_batch (fun _ => BedrockOutcome.throttle) texts 5).2.sum
      = 30 ∧
    (translate_single_text (fun _ => SingleOutcome.throttle) text 3).2.sum
      = 6 := by
  have hpow : ∀ n : Nat, 2 ^ (n - 1 + 1) - 2 = 2 ^ n - 2 := by
    intro n
    cases n with
    | zero => decide
    | succ n' => simp
  refine ⟨translate_texts_batch_throttle_sleeps texts ht m, ?_,
    translate_single_text_throttle_sleeps text hs m, ?_, ?_, ?_⟩
  · rw [translate_texts_batch_throttle_sleeps texts ht m,
      sum_backoff_waits, hpow]
  · rw [translate_single_text_throttle_sleeps text hs m,
      sum_backoff_waits, hpow]
  · rw [translate_texts_batch_throttle_sleeps texts ht 5]
    decide
  · rw [translate_single_text_throttle_sleeps text hs 3]
    decide

/-- Witness for C7 (amended) on concrete inputs. -/
theorem backoff_total_formula_witness :
    (translate_texts_batch (fun _ => BedrockOutcome.throttle) ["hi"] 5).2.sum
      = 30 ∧
    (translate_single_text (fun _ => SingleOutcome.throttle) "hi" 3).2.sum
      = 6 :=
  ⟨(backoff_total_formula ["hi"] (by decide) "hi" (by decide) 5).2.2.2.2.1,
   (backoff_total_formula ["hi"] (by decide) "hi" (by decide) 3).2.2.2.2.2⟩

/-- C3 (amended): re-running Prepare on the same document yields the same
UniqueText set (as a finite set), the same number of batches and the same
batch-size profile; and when the two runs enumerate the set in the same
order the partitions coincide exactly.  What the code does not fix is
that order: `list(unique_texts)` takes CPython's salted, per-process set
iteration order, so the assignment of texts to batchIds may differ. -/
theorem prepare_rerun_set_and_shape (sheets : List Sheet)
    (o1 o2 : List String)
    (h1 : isEnumOf o1 (uniqueList sheets) = true)
    (h2 : isEnumOf o2 (uniqueList sheets) = true) :
    o1.toFinset = o2.toFinset ∧
    (prepareBatches o1).length = (prepareBatches o2).length ∧
    (chunkTexts o1).map List.length = (chunkTexts o2).map List.length ∧
    (o1 = o2 → prepareBatches o1 = prepareBatches o2) := by
  obtain ⟨hf, hlen⟩ := isEnumOf_toFinset_length h1 h2
  have hmap : (chunkTexts o1).map List.length
      = (chunkTexts o2).map List.length := by
    unfold chunkTexts
    rw [chunkGo_map_length, chunkGo_map_length, hlen]
  have hclen : (chunkTexts o1).length = (chunkTexts o2).length := by
    have hc := congrArg List.length hmap
    simpa using hc
  refine ⟨hf, ?_, hmap, fun he => by rw [he]⟩
  simp [prepareBatches, hclen]

/-- Witness for C3 (amended) on a two-text document and its two
enumeration orders. -/
theorem prepare_rerun_set_and_shape_witness :
    (["x one plus", "y two plus"] : List String).toFinset
      = (["y two plus", "x one plus"] : List String).toFinset ∧
    (chunkTexts ["x one plus", "y two plus"]).map List.length
      = (chunkTexts ["y two plus", "x one plus"]).map List.length :=
  ⟨(prepare_rerun_set_and_shape
      [{ title := "S",
         cells := [("A1", PyValue.pystr "x one plus"),
                   ("A2", PyValue.pystr "y two plus")] }]
      ["x one plus", "y two plus"] ["y two plus", "x one plus"]
      (by decide) (by decide)).1,
   (prepare_rerun_set_and_shape
      [{ title := "S",
         cells := [("A1", PyValue.pystr "x one plus"),
                   ("A2", PyValue.pystr "y two plus")] }]
      ["x one plus", "y two plus"] ["y two plus", "x one plus"]
      (by decide) (by decide)).2.2.1⟩

/-- A document with 101 distinct translatable texts, used to exhibit the
order-sensitivity of the batch partition (101 texts straddle the
100-text batch boundary). -/
def exDoc : List Sheet :=
  [{ title := "S1",
     cells := (List.range 101).map
       (fun i => ("A" ++ toString i, PyValue.pystr ("a b " ++ toString i))) }]

/-- One possible `list(unique_texts)` enumeration of the document. -/
def exOrderA : List String := uniqueList exDoc

/-- Another possible enumeration of the same set (reversed). -/
def exOrderB : List String := (uniqueList exDoc).reverse

set_option maxRecDepth 100000 in
/-- C3 (counterexample): both orders are valid enumerations of the same
unique-text set of the same document, yet the resulting batch partitions
differ (text "a b 0" lands in batch 0 under one order and in batch 1
under the other), so identical input does not force an identical
partition across runs. -/
theorem prepare_partition_not_run_invariant :
    isEnumOf exOrderA (uniqueList exDoc) = true ∧
    isEnumOf exOrderB (uniqueList exDoc) = true ∧
    prepareBatches exOrderA ≠ prepareBatches exOrderB := by
  exact ⟨by decide, by decide, by decide⟩

end ExcelTranslator
